import Mathlib

/-!
Shallow embedding of the interview-scheduling program (`new.py`) of this
repository, and theorems settling the specification's claims about it.

Modelling conventions:

* Time is modelled in integer minutes.  A Python `datetime` value is an
  absolute minute count (`Int`); a `date` is a day number; the Python
  `datetime.combine(d, t)` call is `combine d t = 1440 * d + t`; a
  `timedelta(hours = h)` is `60 * h` minutes.  A time interval is a pair
  `(start, stop) : Int × Int`, matching the Python tuples `(start, end)`.
* External collaborators (the spaCy NER pipeline, the dateutil fuzzy
  date/time parser, the Google-calendar free/busy and event-insert calls)
  are modelled as function parameters; a collaborator call that can raise
  is modelled with `Except`.
* The SQLAlchemy store is modelled as a list of `SchedulingRequest`
  records threaded through the operations; `session.commit()` of a changed
  record is the `save` upsert below.  Outbound e-mail sends have no effect
  on any state the claims mention and are not modelled.
-/

/-- An entity produced by the NER pipeline over the raw text: the pair of
`ent.label_` and `ent.text` used by `parse_availability` (new.py line 62). -/
structure Entity where
  label : String
  text : String
deriving DecidableEq

/-- `datetime.combine(d, t)`: the absolute minute-stamp of time-of-day `t`
(minutes after midnight) on day number `d`. -/
def combine (d t : Int) : Int := 1440 * d + t

/-- Python `str.lower()`; the strings this program compares are ASCII, where
`Char.toLower` agrees with Python's lowering. -/
def lower (s : String) : String := ⟨s.data.map Char.toLower⟩

/-- The `vague_times` table (new.py lines 50-54): day-part word to
`(start_hour, start_minute, end_hour, end_minute)`; `vague_times s` is
`some` entry exactly when Python's `time_text in vague_times` holds. -/
def vague_times (s : String) : Option (Int × Int × Int × Int) :=
  if s = "morning" then some (8, 0, 12, 0)
  else if s = "afternoon" then some (13, 0, 17, 0)
  else if s = "evening" then some (17, 0, 20, 0)
  else none

/-- The entity loop of `parse_availability` (new.py lines 62-94).  State:
`cd` is `current_date`, `prev` is `prev_time` (a `(date, start_datetime)`
pair).  `pd` models `date_parser.parse(text, fuzzy=True, default=now).date()`
(`none` = `ValueError`), `pt` models `date_parser.parse(text, fuzzy=True)
.time()` as minutes after midnight (`none` = `ValueError`). -/
def parseAvail (pd pt : String → Option Int) (cd : Option Int)
    (prev : Option (Int × Int)) : List Entity → List (Int × Int)
  | [] => []
  | e :: rest =>
    if e.label = "DATE" then
      parseAvail pd pt (pd e.text) prev rest
    else if e.label = "TIME" then
      match cd with
      | none => parseAvail pd pt none none rest
      | some d =>
        match vague_times (lower e.text) with
        | some (sh, sm, eh, em) =>
          (combine d (60 * sh + sm), combine d (60 * eh + em))
            :: parseAvail pd pt (some d) prev rest
        | none =>
          match pt (lower e.text) with
          | none => parseAvail pd pt (some d) none rest
          | some t =>
            match prev with
            | some pv =>
              if pv.1 = d then
                (pv.2, combine d t) :: parseAvail pd pt (some d) none rest
              else
                (combine d t, combine d t + 60)
                  :: parseAvail pd pt (some d) (some (d, combine d t)) rest
            | none =>
              (combine d t, combine d t + 60)
                :: parseAvail pd pt (some d) (some (d, combine d t)) rest
    else
      parseAvail pd pt cd prev rest

/-- `parse_availability(text)` (new.py lines 56-95), with the NER output
(`nlp(text).ents`) already extracted into an entity list. -/
def parse_availability (pd pt : String → Option Int) (ents : List Entity) :
    List (Int × Int) :=
  parseAvail pd pt none none ents

/-- Ordering of busy intervals by start, as in
`sorted(slot_busy, key=lambda x: x[0])` (new.py line 125). -/
def pointLE (a b : Int × Int) : Prop := a.1 ≤ b.1

instance : DecidableRel pointLE :=
  fun a b => inferInstanceAs (Decidable (a.1 ≤ b.1))

instance : IsTotal (Int × Int) pointLE := ⟨fun a b => Int.le_total a.1 b.1⟩

instance : IsTrans (Int × Int) pointLE := ⟨fun _ _ _ h1 h2 => le_trans h1 h2⟩

/-- The inner sweep of `find_overlapping_slot` (new.py lines 124-130): walk
the sorted overlapping busy intervals with the `free_start` cursor, then the
post-loop check against the window end `wend`. -/
def sweep (duration wend : Int) : Int → List (Int × Int) → Option (Int × Int)
  | free_start, [] =>
    if wend - free_start ≥ duration then
      some (free_start, free_start + duration)
    else none
  | free_start, b :: rest =>
    if b.1 - free_start ≥ duration then
      some (free_start, free_start + duration)
    else sweep duration wend b.2 rest

/-- The body of the window loop of `find_overlapping_slot` (new.py lines
118-130) for one availability window `w`. -/
def windowSlot (w : Int × Int) (busy_slots : List (Int × Int))
    (duration_hours : Int) : Option (Int × Int) :=
  let duration := 60 * duration_hours
  let slot_busy := busy_slots.filter fun b => decide (b.1 < w.2 ∧ b.2 > w.1)
  if slot_busy.isEmpty then
    if w.2 - w.1 ≥ duration then some (w.1, w.1 + duration) else none
  else
    sweep duration w.2 w.1 (List.insertionSort pointLE slot_busy)

/-- `find_overlapping_slot(availability, busy_slots, duration_hours)`
(new.py lines 116-131); `none` models the `(None, None)` return. -/
def find_overlapping_slot (availability busy_slots : List (Int × Int))
    (duration_hours : Int) : Option (Int × Int) :=
  match availability with
  | [] => none
  | w :: rest =>
    match windowSlot w busy_slots duration_hours with
    | some s => some s
    | none => find_overlapping_slot rest busy_slots duration_hours

/-- `disjointIv a b`: the half-open intervals `a` and `b` share no time
(the negation of the overlap test `b[0] < end and b[1] > start` used on
new.py line 119). -/
def disjointIv (a b : Int × Int) : Prop := a.2 ≤ b.1 ∨ b.2 ≤ a.1

instance : DecidableRel disjointIv :=
  fun _ _ => inferInstanceAs (Decidable (_ ∨ _))

/-- C4: with availability `[09:00,12:00)`, busy `[(10:00,10:30)]` and a
one-hour duration, the matcher returns `[09:00,10:00)`, the earliest fit
before the conflict (minutes: 540, 720, 600, 630). -/
theorem C4_earliest_fit_before_conflict :
    find_overlapping_slot [(540, 720)] [(600, 630)] 1 = some (540, 600) := by
  decide

/-- C6: with availability `[09:00,10:30)`, busy `[(09:00,10:00)]` and a
one-hour duration, the matcher returns none: the remaining free part of the
window is only 30 minutes. -/
theorem C6_none_when_remainder_too_short :
    find_overlapping_slot [(540, 630)] [(540, 600)] 1 = none := by
  decide

/-- Sorted-by-start, pairwise-disjoint, nonempty intervals form a chain:
each interval ends no later than the next begins. -/
theorem chain_of_sorted_disjoint :
    ∀ l : List (Int × Int), List.Pairwise pointLE l →
      List.Pairwise disjointIv l → (∀ b ∈ l, b.1 < b.2) →
      List.Pairwise (fun a b => a.2 ≤ b.1) l := by
  intro l
  induction l with
  | nil => intro _ _ _; exact List.Pairwise.nil
  | cons a l ih =>
    intro h1 h2 h3
    rw [List.pairwise_cons] at h1 h2 ⊢
    refine ⟨fun b hb => ?_, ih h1.2 h2.2
      (fun b hb => h3 b (List.mem_cons_of_mem a hb))⟩
    rcases h2.1 b hb with h | h
    · exact h
    · have hab : a.1 ≤ b.1 := h1.1 b hb
      have hb2 : b.1 < b.2 := h3 b (List.mem_cons_of_mem a hb)
      omega

/-- Soundness of the `free_start` sweep on a chained list of busy intervals
whose starts all precede the window end `we`: a returned slot starts no
earlier than the cursor, has exact length `d`, ends inside the window and is
disjoint from every busy interval of the list. -/
theorem sweep_sound (d we : Int) :
    ∀ (l : List (Int × Int)) (fs s e : Int),
      List.Pairwise pointLE l →
      List.Pairwise (fun a b => a.2 ≤ b.1) l →
      (∀ b ∈ l, b.1 < we) →
      (∀ b ∈ l, b.1 < b.2) →
      (∀ b ∈ l, fs ≤ b.2) →
      sweep d we fs l = some (s, e) →
      fs ≤ s ∧ e = s + d ∧ e ≤ we ∧ ∀ b ∈ l, b.2 ≤ s ∨ e ≤ b.1 := by
  intro l
  induction l with
  | nil =>
    intro fs s e _ _ _ _ _ hsw
    rw [sweep] at hsw
    split_ifs at hsw with hc
    · simp only [Option.some.injEq, Prod.mk.injEq] at hsw
      obtain ⟨rfl, rfl⟩ := hsw
      exact ⟨le_refl _, rfl, by omega, by simp⟩
  | cons b l ih =>
    intro fs s e hsort hchain hwe hne hfs hsw
    rw [sweep] at hsw
    split_ifs at hsw with hc
    · simp only [Option.some.injEq, Prod.mk.injEq] at hsw
      obtain ⟨rfl, rfl⟩ := hsw
      have hbwe : b.1 < we := hwe b (List.mem_cons_self b l)
      refine ⟨le_refl _, rfl, by omega, ?_⟩
      intro b2 hb2
      rcases List.mem_cons.mp hb2 with rfl | hb2
      · right; omega
      · right
        have hble : b.1 ≤ b2.1 := (List.pairwise_cons.mp hsort).1 b2 hb2
        omega
    · have hsort2 := (List.pairwise_cons.mp hsort).2
      have hchain2 := (List.pairwise_cons.mp hchain).2
      have hchain1 := (List.pairwise_cons.mp hchain).1
      obtain ⟨i1, i2, i3, i4⟩ := ih b.2 s e hsort2 hchain2
        (fun b2 hb2 => hwe b2 (List.mem_cons_of_mem b hb2))
        (fun b2 hb2 => hne b2 (List.mem_cons_of_mem b hb2))
        (fun b2 hb2 => by
          have h1 := hchain1 b2 hb2
          have h2 := hne b2 (List.mem_cons_of_mem b hb2)
          omega)
        hsw
      have hfsb : fs ≤ b.2 := hfs b (List.mem_cons_self b l)
      refine ⟨le_trans hfsb i1, i2, i3, ?_⟩
      intro b2 hb2
      rcases List.mem_cons.mp hb2 with rfl | hb2
      · left; exact i1
      · exact i4 b2 hb2

/-- Soundness of the per-window search when the busy intervals are
well-formed and pairwise disjoint: a returned slot lies inside the window,
has exact length, and avoids every busy interval. -/
theorem windowSlot_sound (w : Int × Int) (busy : List (Int × Int))
    (dh s e : Int)
    (hne : ∀ b ∈ busy, b.1 < b.2)
    (hdisj : List.Pairwise disjointIv busy)
    (h : windowSlot w busy dh = some (s, e)) :
    w.1 ≤ s ∧ e = s + 60 * dh ∧ e ≤ w.2 ∧
      ∀ b ∈ busy, b.2 ≤ s ∨ e ≤ b.1 := by
  simp only [windowSlot] at h
  by_cases hemp : (busy.filter fun b => decide (b.1 < w.2 ∧ b.2 > w.1)).isEmpty
  · rw [if_pos hemp] at h
    split_ifs at h with hlen
    · simp only [Option.some.injEq, Prod.mk.injEq] at h
      obtain ⟨rfl, rfl⟩ := h
      have hall : ∀ b ∈ busy, ¬(b.1 < w.2 ∧ b.2 > w.1) := by
        have hnil := List.filter_eq_nil_iff.mp (List.isEmpty_iff.mp hemp)
        intro b hb
        simpa using hnil b hb
      refine ⟨le_refl _, rfl, by omega, ?_⟩
      intro b hb
      rcases not_and_or.mp (hall b hb) with h1 | h1
      · right; omega
      · left; omega
  · rw [if_neg hemp] at h
    have hperm := List.perm_insertionSort pointLE
      (busy.filter fun b => decide (b.1 < w.2 ∧ b.2 > w.1))
    have hmemL : ∀ b ∈ List.insertionSort pointLE
        (busy.filter fun b => decide (b.1 < w.2 ∧ b.2 > w.1)),
        b ∈ busy ∧ b.1 < w.2 ∧ b.2 > w.1 := by
      intro b hb
      have hin := List.mem_filter.mp (hperm.mem_iff.mp hb)
      refine ⟨hin.1, by simpa using hin.2⟩
    have hsort : List.Pairwise pointLE (List.insertionSort pointLE
        (busy.filter fun b => decide (b.1 < w.2 ∧ b.2 > w.1))) :=
      List.sorted_insertionSort pointLE _
    have hdisjL : List.Pairwise disjointIv (List.insertionSort pointLE
        (busy.filter fun b => decide (b.1 < w.2 ∧ b.2 > w.1))) :=
      (hperm.pairwise_iff (fun hab => Or.symm hab)).mpr
        (hdisj.sublist (List.filter_sublist busy))
    have hchain := chain_of_sorted_disjoint _ hsort hdisjL
      (fun b hb => hne b (hmemL b hb).1)
    obtain ⟨i1, i2, i3, i4⟩ := sweep_sound (60 * dh) w.2 _ w.1 s e hsort hchain
      (fun b hb => (hmemL b hb).2.1)
      (fun b hb => hne b (hmemL b hb).1)
      (fun b hb => le_of_lt (hmemL b hb).2.2)
      h
    refine ⟨i1, i2, i3, fun b hb => ?_⟩
    by_cases hbp : b.1 < w.2 ∧ b.2 > w.1
    · exact i4 b (hperm.mem_iff.mpr
        (List.mem_filter.mpr ⟨hb, by simpa using hbp⟩))
    · rcases not_and_or.mp hbp with h1 | h1
      · right; omega
      · left; omega

/-- C1 fails as stated: with mutually overlapping busy intervals the cursor
`free_start = busy_end` (new.py line 128, no `max`) can move backwards, and
the matcher returns a slot overlapping a busy interval.  Concretely, window
`[0,1200)`, busy `[(0,600),(60,120)]`, duration 3 h: the sweep returns
`(120, 300)`, which lies inside the busy interval `(0, 600)`. -/
theorem C1_counterexample :
    ¬ (∀ (avail busy : List (Int × Int)) (dh : Int), 0 < dh →
        ∀ s e : Int, find_overlapping_slot avail busy dh = some (s, e) →
          (∃ w ∈ avail, w.1 ≤ s ∧ e ≤ w.2) ∧
            ∀ b ∈ busy, b.2 ≤ s ∨ e ≤ b.1) := by
  intro hclaim
  have h := (hclaim [(0, 1200)] [(0, 600), (60, 120)] 3 (by decide)
    120 300 (by decide)).2 (0, 600) (by decide)
  revert h
  decide

/-- C1 (amended): if each busy interval satisfies the TimeInterval invariant
`start < end` and the busy intervals are pairwise disjoint, then a returned
slot has exactly the requested duration, is contained in one of the
availability windows, and is disjoint from every busy interval. -/
theorem C1_slot_guarantee (avail busy : List (Int × Int)) (dh : Int)
    (_hd : 0 < dh)
    (hne : ∀ b ∈ busy, b.1 < b.2)
    (hdisj : List.Pairwise disjointIv busy)
    (s e : Int)
    (h : find_overlapping_slot avail busy dh = some (s, e)) :
    (∃ w ∈ avail, w.1 ≤ s ∧ e ≤ w.2) ∧ e = s + 60 * dh ∧
      ∀ b ∈ busy, b.2 ≤ s ∨ e ≤ b.1 := by
  induction avail with
  | nil => simp [find_overlapping_slot] at h
  | cons w rest ih =>
    cases hw : windowSlot w busy dh with
    | some p =>
      rw [find_overlapping_slot, hw] at h
      simp only [Option.some.injEq] at h
      subst h
      obtain ⟨i1, i2, i3, i4⟩ := windowSlot_sound w busy dh s e hne hdisj hw
      exact ⟨⟨w, List.mem_cons_self w rest, i1, i3⟩, i2, i4⟩
    | none =>
      rw [find_overlapping_slot, hw] at h
      obtain ⟨⟨w2, hw2, hc⟩, i2, i3⟩ := ih h
      exact ⟨⟨w2, List.mem_cons_of_mem w hw2, hc⟩, i2, i3⟩

/-- Witness for the amended C1 at window `[0,120)`, busy `[(30,40)]`,
duration one hour: the returned slot `(40, 100)` is inside the window and
avoids the busy interval. -/
theorem C1_slot_guarantee_witness :
    (∃ w ∈ [((0 : Int), (120 : Int))], w.1 ≤ 40 ∧ 100 ≤ w.2) ∧
      (100 : Int) = 40 + 60 * 1 ∧
      ∀ b ∈ [((30 : Int), (40 : Int))], b.2 ≤ 40 ∨ 100 ≤ b.1 :=
  C1_slot_guarantee [(0, 120)] [(30, 40)] 1 (by decide) (by decide)
    (by decide) 40 100 (by decide)

/-- C5: the window loop is first-fit over the caller-supplied order: if the
windows before position `i` each admit no slot and window `i` admits one,
the matcher's answer is exactly window `i`'s slot — windows are never
compared globally. -/
theorem C5_first_fit_window_order (busy : List (Int × Int)) (dh : Int) :
    ∀ (avail : List (Int × Int)) (i : Nat) (hi : i < avail.length),
      (∀ j (hj : j < i),
        windowSlot (avail.get ⟨j, Nat.lt_trans hj hi⟩) busy dh = none) →
      windowSlot (avail.get ⟨i, hi⟩) busy dh ≠ none →
      find_overlapping_slot avail busy dh =
        windowSlot (avail.get ⟨i, hi⟩) busy dh := by
  intro avail
  induction avail with
  | nil => intro i hi; exact absurd hi (by simp)
  | cons w rest ih =>
    intro i hi hbefore hyes
    cases i with
    | zero =>
      simp only [List.get] at hyes ⊢
      cases hw : windowSlot w busy dh with
      | some p => rw [find_overlapping_slot, hw]
      | none => exact absurd hw hyes
    | succ i =>
      have h0 : windowSlot w busy dh = none := hbefore 0 (Nat.succ_pos i)
      rw [find_overlapping_slot, h0]
      simp only [List.get] at hyes ⊢
      exact ih i (Nat.lt_of_succ_lt_succ hi)
        (fun j hj => hbefore (j + 1) (Nat.succ_lt_succ hj)) hyes

/-- Witness for C5: the first window `[0,10)` is too short once busy
`(0,150)` is swept, the second window `[0,300)` yields `(150, 210)`; the
matcher returns the second window's slot. -/
theorem C5_first_fit_witness :
    find_overlapping_slot [(0, 10), (0, 300)] [(0, 150)] 1 =
      windowSlot (List.get [((0 : Int), (10 : Int)), (0, 300)]
        ⟨1, by decide⟩) [(0, 150)] 1 :=
  C5_first_fit_window_order [(0, 150)] 1 [(0, 10), (0, 300)] 1 (by decide)
    (by
      intro j hj
      have hj0 : j = 0 := by omega
      subst hj0
      exact (by decide :
        windowSlot ((0 : Int), (10 : Int)) [((0 : Int), (150 : Int))] 1
          = none))
    (by decide)

/-- The entity stream produced for the text `"Monday 10 AM to 12 PM"`:
`Monday` labelled DATE, the two clock times labelled TIME, document order. -/
def entsC2 : List Entity :=
  [⟨"DATE", "Monday"⟩, ⟨"TIME", "10 AM"⟩, ⟨"TIME", "12 PM"⟩]

/-- A concrete fuzzy-date oracle: `Monday` resolves to day number 0 (the
fixed reference date's Monday). -/
def pdC2 : String → Option Int :=
  fun s => if s = "Monday" then some 0 else none

/-- A concrete fuzzy-time oracle: `10 am` is 600 minutes after midnight,
`12 pm` is 720. -/
def ptC2 : String → Option Int :=
  fun s => if s = "10 am" then some 600 else
    if s = "12 pm" then some 720 else none

/-- C2 fails as stated: on `"Monday 10 AM to 12 PM"` the parser returns two
intervals, not one.  The first TIME entity already emits its default
one-hour interval (new.py lines 88-90) before the second TIME entity closes
the range (lines 82-84). -/
theorem C2_counterexample :
    (parse_availability pdC2 ptC2 entsC2).length = 2 ∧
      parse_availability pdC2 ptC2 entsC2 ≠ [(600, 720)] := by
  decide

/-- C2 (amended): for `"Monday 10 AM to 12 PM"` with the resolved Monday
being day `d`, the parser returns exactly two intervals: the default
one-hour interval `[10:00, 11:00)` for the first time mention, followed by
the explicit range `[10:00, 12:00)`; the range 10:00-12:00 on the resolved
Monday is the last interval, not the only one. -/
theorem C2_range_two_intervals (d : Int) (pd pt : String → Option Int)
    (h1 : pd "Monday" = some d) (h2 : pt "10 am" = some 600)
    (h3 : pt "12 pm" = some 720) :
    parse_availability pd pt entsC2 =
      [(combine d 600, combine d 660), (combine d 600, combine d 720)] := by
  have l1 : lower "10 AM" = "10 am" := by decide
  have l2 : lower "12 PM" = "12 pm" := by decide
  simp [parse_availability, parseAvail, entsC2, l1, l2, h1, h2, h3,
    vague_times, combine]
  omega

/-- Witness for the amended C2 with the concrete oracles and day 0. -/
theorem C2_range_two_intervals_witness :
    parse_availability pdC2 ptC2 entsC2 =
      [(combine 0 600, combine 0 660), (combine 0 600, combine 0 720)] :=
  C2_range_two_intervals 0 pdC2 ptC2 (by decide) (by decide) (by decide)

/-- An entity stream with a descending explicit range
(`"Monday 10 AM to 9 AM"`). -/
def entsC3 : List Entity :=
  [⟨"DATE", "Monday"⟩, ⟨"TIME", "10 AM"⟩, ⟨"TIME", "9 AM"⟩]

/-- A concrete fuzzy-time oracle: `10 am` is 600 minutes, `9 am` is 540. -/
def ptC3 : String → Option Int :=
  fun s => if s = "10 am" then some 600 else
    if s = "9 am" then some 540 else none

/-- C3 fails as stated: the range branch (new.py lines 82-84) emits
`(prev_start, this_time)` without checking order, so the stream for
`"Monday 10 AM to 9 AM"` yields the interval `(10:00, 09:00)` with
`start > end`, violating the TimeInterval invariant. -/
theorem C3_counterexample :
    ¬ (∀ (pd pt : String → Option Int) (ents : List Entity),
        ∀ iv ∈ parse_availability pd pt ents, iv.1 < iv.2) := by
  intro h
  have h2 := h pdC2 ptC3 entsC3 (600, 540) (by decide)
  revert h2
  decide

/-- `vague_times` entries denote nonempty day parts. -/
theorem vague_times_lt (s : String) (sh sm eh em : Int)
    (h : vague_times s = some (sh, sm, eh, em)) :
    60 * sh + sm < 60 * eh + em := by
  unfold vague_times at h
  split_ifs at h <;> simp_all <;> omega

/-- State invariant of the entity loop: every interval it emits satisfies
`start < end` except an explicit-range interval whose two endpoints are
parsed times on the same date with the second time not after the first.
The hypothesis describes the pending `prev_time` marker: it always holds a
parsed time combined with its date. -/
theorem parseAvail_cons (pd pt : String → Option Int) (cd : Option Int)
    (prev : Option (Int × Int)) (e : Entity) (rest : List Entity) :
    parseAvail pd pt cd prev (e :: rest) =
      if e.label = "DATE" then
        parseAvail pd pt (pd e.text) prev rest
      else if e.label = "TIME" then
        match cd with
        | none => parseAvail pd pt none none rest
        | some d =>
          match vague_times (lower e.text) with
          | some (sh, sm, eh, em) =>
            (combine d (60 * sh + sm), combine d (60 * eh + em))
              :: parseAvail pd pt (some d) prev rest
          | none =>
            match pt (lower e.text) with
            | none => parseAvail pd pt (some d) none rest
            | some t =>
              match prev with
              | some pv =>
                if pv.1 = d then
                  (pv.2, combine d t) :: parseAvail pd pt (some d) none rest
                else
                  (combine d t, combine d t + 60)
                    :: parseAvail pd pt (some d) (some (d, combine d t)) rest
              | none =>
                (combine d t, combine d t + 60)
                  :: parseAvail pd pt (some d) (some (d, combine d t)) rest
      else
        parseAvail pd pt cd prev rest := rfl

/-- State invariant of the entity loop: every interval it emits satisfies
`start < end` except an explicit-range interval whose two endpoints are
parsed times on the same date with the second time not after the first.
The hypothesis describes the pending `prev_time` marker: it always holds a
parsed time combined with its date. -/
theorem parseAvail_ranges (pd pt : String → Option Int) :
    ∀ (ents : List Entity) (cd : Option Int) (prev : Option (Int × Int)),
      (∀ dv : Int × Int, prev = some dv →
        ∃ t s0, pt s0 = some t ∧ dv.2 = combine dv.1 t) →
      ∀ iv ∈ parseAvail pd pt cd prev ents,
        iv.1 < iv.2 ∨
          ∃ d t1 t2 s1 s2, pt s1 = some t1 ∧ pt s2 = some t2 ∧
            t2 ≤ t1 ∧ iv = (combine d t1, combine d t2) := by
  intro ents
  induction ents with
  | nil =>
    intro cd prev _ iv hiv
    simp [parseAvail] at hiv
  | cons e rest ih =>
    intro cd prev hprev iv hiv
    rw [parseAvail_cons] at hiv
    by_cases hD : e.label = "DATE"
    · rw [if_pos hD] at hiv
      exact ih (pd e.text) prev hprev iv hiv
    · rw [if_neg hD] at hiv
      by_cases hT : e.label = "TIME"
      · rw [if_pos hT] at hiv
        cases cd with
        | none => exact ih none none (by simp) iv hiv
        | some d =>
          generalize hveq : vague_times (lower e.text) = vq at hiv
          cases vq with
          | some q =>
            obtain ⟨sh, sm, eh, em⟩ := q
            have hiv2 : iv ∈ (combine d (60 * sh + sm),
                combine d (60 * eh + em))
                  :: parseAvail pd pt (some d) prev rest := hiv
            rcases List.mem_cons.mp hiv2 with rfl | hiv3
            · left
              have hlt := vague_times_lt _ _ _ _ _ hveq
              show combine d (60 * sh + sm) < combine d (60 * eh + em)
              simp only [combine]
              omega
            · exact ih (some d) prev hprev iv hiv3
          | none =>
            generalize hpeq : pt (lower e.text) = pq at hiv
            cases pq with
            | none => exact ih (some d) none (by simp) iv hiv
            | some t =>
              cases prev with
              | none =>
                have hiv2 : iv ∈ (combine d t, combine d t + 60)
                    :: parseAvail pd pt (some d) (some (d, combine d t))
                      rest := hiv
                rcases List.mem_cons.mp hiv2 with rfl | hiv3
                · left
                  show combine d t < combine d t + 60
                  omega
                · exact ih (some d) (some (d, combine d t))
                    (by
                      intro dv hdv
                      injection hdv with hdv2
                      subst hdv2
                      exact ⟨t, lower e.text, hpeq, rfl⟩)
                    iv hiv3
              | some pv =>
                have hiv2 : iv ∈ (if pv.1 = d then
                    (pv.2, combine d t)
                      :: parseAvail pd pt (some d) none rest
                  else
                    (combine d t, combine d t + 60)
                      :: parseAvail pd pt (some d) (some (d, combine d t))
                        rest) := hiv
                by_cases hpd : pv.1 = d
                · rw [if_pos hpd] at hiv2
                  rcases List.mem_cons.mp hiv2 with rfl | hiv3
                  · obtain ⟨t1, s1, hs1, hv2⟩ := hprev pv rfl
                    by_cases hlt : t1 < t
                    · left
                      show pv.2 < combine d t
                      rw [hv2, hpd]
                      simp only [combine]
                      omega
                    · right
                      refine ⟨d, t1, t, s1, lower e.text, hs1, hpeq,
                        by omega, ?_⟩
                      show (pv.2, combine d t) = (combine d t1, combine d t)
                      rw [hv2, hpd]
                  · exact ih (some d) none (by simp) iv hiv3
                · rw [if_neg hpd] at hiv2
                  rcases List.mem_cons.mp hiv2 with rfl | hiv3
                  · left
                    show combine d t < combine d t + 60
                    omega
                  · exact ih (some d) (some (d, combine d t))
                      (by
                        intro dv hdv
                        injection hdv with hdv2
                        subst hdv2
                        exact ⟨t, lower e.text, hpeq, rfl⟩)
                      iv hiv3
      · rw [if_neg hT] at hiv
        exact ih cd prev hprev iv hiv

/-- C3 (amended): every interval returned by `parse_availability` satisfies
`start < end`, except explicit-range intervals whose endpoints are two
parsed times on the same date with the second time less than or equal to
the first (a descending or empty range such as `"Monday 10 AM to 9 AM"`). -/
theorem C3_interval_invariant (pd pt : String → Option Int)
    (ents : List Entity) :
    ∀ iv ∈ parse_availability pd pt ents,
      iv.1 < iv.2 ∨
        ∃ d t1 t2 s1 s2, pt s1 = some t1 ∧ pt s2 = some t2 ∧
          t2 ≤ t1 ∧ iv = (combine d t1, combine d t2) :=
  parseAvail_ranges pd pt ents none none (by simp)

/-- Witness for the amended C3 at the first interval the concrete
`"Monday 10 AM to 12 PM"` stream produces. -/
theorem C3_interval_invariant_witness :
    ((600 : Int), (660 : Int)).1 < ((600 : Int), (660 : Int)).2 ∨
      ∃ d t1 t2 s1 s2, ptC2 s1 = some t1 ∧ ptC2 s2 = some t2 ∧
        t2 ≤ t1 ∧ ((600 : Int), (660 : Int)) = (combine d t1, combine d t2) :=
  C3_interval_invariant pdC2 ptC2 entsC2 (600, 660) (by decide)

/-- C9: a TIME entity met while no current date context exists is discarded
silently — the result is that of the remaining entities — and the pending
half-open range marker is reset to absent, whatever it held (new.py lines
93-94). -/
theorem C9_time_without_date_discarded (pd pt : String → Option Int)
    (prev : Option (Int × Int)) (s : String) (rest : List Entity) :
    parseAvail pd pt none prev (⟨"TIME", s⟩ :: rest) =
      parseAvail pd pt none none rest := by
  simp [parseAvail]

/-- The persisted `SchedulingRequest` record (new.py lines 27-33).
`availability` holds the decoded interval list (the JSON/ISO round-trip of
lines 143-146 and 223 is the identity on the minute-stamp model); the empty
list models the initial NULL column, for which `json.loads(req.availability
or chr(91) ++ chr(93))` also yields the empty list. -/
structure SchedulingRequest where
  id : Int
  candidate_email : String
  recruiter_email : String
  status : String
  availability : List (Int × Int)
deriving DecidableEq

/-- The request table, threaded in place of the SQLAlchemy session. -/
abbrev Store := List SchedulingRequest

/-- `session.merge(req); session.commit()` (new.py lines 156-158): upsert
the record with this id. -/
def save (store : Store) (req : SchedulingRequest) : Store :=
  if store.any fun r => r.id == req.id then
    store.map fun r => if r.id == req.id then req else r
  else
    store ++ [req]

/-- The window loop of `schedule_interview` (new.py lines 150-164).
`fetch` models `get_free_slots` (the calendar free/busy query, which may
raise), `create` models `create_event` (which may raise); an `Except.error`
models the exception propagating out of the loop with the store as it was.
On the first window whose slot search succeeds the request is saved with
status `scheduled` and the loop returns `True`. -/
def schedule_loop (fetch : Int × Int → Except ε (List (Int × Int)))
    (create : Int × Int → Except ε Unit) (req : SchedulingRequest) :
    List (Int × Int) → Store → Store × Except ε Bool
  | [], store => (store, .ok false)
  | w :: rest, store =>
    match fetch w with
    | .error err => (store, .error err)
    | .ok busy_slots =>
      match find_overlapping_slot [w] busy_slots 1 with
      | some slot =>
        match create slot with
        | .error err => (store, .error err)
        | .ok _ => (save store { req with status := "scheduled" }, .ok true)
      | none => schedule_loop fetch create req rest store

/-- `schedule_interview(req)` (new.py lines 142-164): empty availability
returns `False` at once (line 144-145); otherwise the window loop runs. -/
def schedule_interview (fetch : Int × Int → Except ε (List (Int × Int)))
    (create : Int × Int → Except ε Unit) (req : SchedulingRequest)
    (store : Store) : Store × Except ε Bool :=
  if req.availability.isEmpty then (store, .ok false)
  else schedule_loop fetch create req req.availability store

/-- The `/incoming_email` handler (new.py lines 212-226).  `rid?` models the
regex extraction `Request #(number)` from the subject (`none` = no match);
`nlp` models the NER pipeline applied to the body text.  The request is
looked up by id; only an existing request in status `pending` is processed:
its availability is parsed, committed (line 224), and `schedule_interview`
is invoked on the updated record. -/
def incoming_email (nlp : String → List Entity)
    (pd pt : String → Option Int)
    (fetch : Int × Int → Except ε (List (Int × Int)))
    (create : Int × Int → Except ε Unit)
    (rid? : Option Int) (text : String) (store : Store) :
    Store × Except ε Unit :=
  match rid? with
  | none => (store, .ok ())
  | some request_id =>
    match store.find? fun r => r.id == request_id with
    | none => (store, .ok ())
    | some req =>
      if req.status = "pending" then
        let req2 := { req with
          availability := parse_availability pd pt (nlp text) }
        let store1 := save store req2
        let result := schedule_interview fetch create req2 store1
        (result.1, result.2.map fun _ => ())
      else (store, .ok ())

/-- The `/schedule` handler (new.py lines 199-210): create a request in
status `pending` with no availability.  `rid` stands for the fresh primary
key the store assigns. -/
def initiate (store : Store) (candidate_email recruiter_email : String)
    (rid : Int) : Store :=
  store ++ [⟨rid, candidate_email, recruiter_email, "pending", []⟩]

/-- C7 helper: the window loop leaves the store untouched whenever it does
not end in a successful booking. -/
theorem schedule_loop_error_fst
    (fetch : Int × Int → Except ε (List (Int × Int)))
    (create : Int × Int → Except ε Unit) (req : SchedulingRequest) :
    ∀ (avail : List (Int × Int)) (store : Store) (err : ε),
      (schedule_loop fetch create req avail store).2 = .error err →
      (schedule_loop fetch create req avail store).1 = store := by
  intro avail
  induction avail with
  | nil => intro store err h; rfl
  | cons w rest ih =>
    intro store err h
    rw [schedule_loop] at h ⊢
    split at h
    · rfl
    · split at h
      · split at h
        · rfl
        · exact absurd h (by simp)
      · exact ih store err h

/-- C7: if `schedule_interview` ends with a collaborator failure (the
free/busy fetch or the event creation raising), the persisted store — in
particular the request's status — is exactly what it was before the call:
the `scheduled` status is saved only after `create_event` has returned
successfully. -/
theorem C7_no_commit_on_failure
    (fetch : Int × Int → Except ε (List (Int × Int)))
    (create : Int × Int → Except ε Unit) (req : SchedulingRequest)
    (store : Store) (err : ε)
    (h : (schedule_interview fetch create req store).2 = .error err) :
    (schedule_interview fetch create req store).1 = store := by
  rw [schedule_interview] at h ⊢
  by_cases he : req.availability.isEmpty
  · rw [if_pos he]
  · rw [if_neg he] at h ⊢
    exact schedule_loop_error_fst fetch create req req.availability
      store err h

/-- A fetch oracle that always returns an empty busy list. -/
def fetchW : Int × Int → Except Unit (List (Int × Int)) := fun _ => .ok []

/-- A create oracle that always fails (the event-insert call raising). -/
def createFail : Int × Int → Except Unit Unit := fun _ => .error ()

/-- A pending request with one two-hour window, used as witness input. -/
def reqW : SchedulingRequest := ⟨1, "cand", "rec", "pending", [(0, 120)]⟩

/-- Witness for C7: with a failing event-creation call, the store after
`schedule_interview` equals the store before it. -/
theorem C7_no_commit_on_failure_witness :
    (schedule_interview fetchW createFail reqW [reqW]).1 = [reqW] :=
  C7_no_commit_on_failure fetchW createFail reqW [reqW] () rfl

/-- C8: if the request id is not in the store, or the request found by id is
not in status `pending`, then `incoming_email` is a no-op: the store is
returned unchanged, no error is raised, and the result does not depend on
the parsing or calendar collaborators at all (new.py lines 220-221). -/
theorem C8_ingest_noop (nlp : String → List Entity)
    (pd pt : String → Option Int)
    (fetch : Int × Int → Except ε (List (Int × Int)))
    (create : Int × Int → Except ε Unit)
    (rid : Int) (text : String) (store : Store)
    (h : Option.all (fun r => decide (r.status ≠ "pending"))
      (store.find? fun r => r.id == rid) = true) :
    incoming_email nlp pd pt fetch create (some rid) text store =
      (store, Except.ok ()) := by
  rw [incoming_email.eq_def]
  split
  · rename_i hnone
    exact absurd hnone (by simp)
  · rename_i rid2 hrid2
    have hrid3 : rid = rid2 := by
      simpa using hrid2
    subst hrid3
    split
    · rfl
    · rename_i req heq
      rw [heq] at h
      simp only [Option.all, decide_eq_true_eq] at h
      rw [if_neg h]

/-- An NER oracle returning no entities, used as a witness input. -/
def nlpW : String → List Entity := fun _ => []

/-- A fuzzy parser oracle that always fails, used as a witness input. -/
def pdW : String → Option Int := fun _ => none

/-- A request already in status `scheduled`, used as a witness input. -/
def reqSched : SchedulingRequest := ⟨1, "cand", "rec", "scheduled", []⟩

/-- Witness for C8: re-ingesting a reply for a request that has already
left `pending` changes nothing and raises nothing. -/
theorem C8_ingest_noop_witness :
    incoming_email nlpW pdW pdW fetchW createFail (some 1) "reply"
      [reqSched] = ([reqSched], Except.ok ()) :=
  C8_ingest_noop nlpW pdW pdW fetchW createFail 1 "reply" [reqSched]
    (by decide)

/-- The status invariant the implicit claim C10 asserts: only `pending` and
`scheduled` ever occur; the `failed` member of the spec's enum is dead. -/
def StatusOK (store : Store) : Prop :=
  ∀ r ∈ store, r.status = "pending" ∨ r.status = "scheduled"

/-- The stores reachable through the core's operations: the empty table,
request creation (`/schedule`), reply ingestion (`/incoming_email`) and a
bare `schedule_interview` invocation, with arbitrary collaborator
behaviour. -/
inductive Reachable : Store → Prop where
  | nil : Reachable []
  | initiate_step (s : Store) (c r : String) (i : Int) :
      Reachable s → Reachable (initiate s c r i)
  | ingest_step (s : Store) (nlp : String → List Entity)
      (pd pt : String → Option Int)
      (fetch : Int × Int → Except Unit (List (Int × Int)))
      (create : Int × Int → Except Unit Unit)
      (rid? : Option Int) (text : String) :
      Reachable s →
      Reachable (incoming_email nlp pd pt fetch create rid? text s).1
  | schedule_step (s : Store)
      (fetch : Int × Int → Except Unit (List (Int × Int)))
      (create : Int × Int → Except Unit Unit) (req : SchedulingRequest) :
      Reachable s → Reachable (schedule_interview fetch create req s).1

/-- Everything in an upserted store is an old record or the new record. -/
theorem mem_save (store : Store) (req : SchedulingRequest) :
    ∀ r ∈ save store req, r ∈ store ∨ r = req := by
  intro r hr
  rw [save] at hr
  split at hr
  · rcases List.mem_map.mp hr with ⟨a, ha, hfa⟩
    split at hfa
    · right; exact hfa.symm
    · left; exact hfa ▸ ha
  · rcases List.mem_append.mp hr with h1 | h1
    · left; exact h1
    · right; simpa using h1

/-- Upserting a record with a legal status preserves the invariant. -/
theorem statusOK_save (store : Store) (req : SchedulingRequest)
    (h : StatusOK store)
    (hreq : req.status = "pending" ∨ req.status = "scheduled") :
    StatusOK (save store req) := by
  intro r hr
  rcases mem_save store req r hr with h1 | rfl
  · exact h r h1
  · exact hreq

/-- The window loop either leaves the store alone or saves the request with
status `scheduled`. -/
theorem schedule_loop_fst (fetch : Int × Int → Except ε (List (Int × Int)))
    (create : Int × Int → Except ε Unit) (req : SchedulingRequest) :
    ∀ (avail : List (Int × Int)) (store : Store),
      (schedule_loop fetch create req avail store).1 = store ∨
        (schedule_loop fetch create req avail store).1 =
          save store { req with status := "scheduled" } := by
  intro avail
  induction avail with
  | nil => intro store; left; rfl
  | cons w rest ih =>
    intro store
    rw [schedule_loop]
    split
    · left; rfl
    · split
      · split
        · left; rfl
        · right; rfl
      · exact ih store

/-- `schedule_interview` preserves the status invariant. -/
theorem statusOK_schedule (fetch : Int × Int → Except ε (List (Int × Int)))
    (create : Int × Int → Except ε Unit) (req : SchedulingRequest)
    (store : Store) (h : StatusOK store) :
    StatusOK (schedule_interview fetch create req store).1 := by
  rw [schedule_interview]
  split
  · exact h
  · rcases schedule_loop_fst fetch create req req.availability store
      with h1 | h1 <;> rw [h1]
    · exact h
    · exact statusOK_save store _ h (Or.inr rfl)

/-- `incoming_email` preserves the status invariant: the availability commit
re-saves a `pending` record, and only the booking step writes
`scheduled`. -/
theorem statusOK_ingest (nlp : String → List Entity)
    (pd pt : String → Option Int)
    (fetch : Int × Int → Except ε (List (Int × Int)))
    (create : Int × Int → Except ε Unit)
    (rid? : Option Int) (text : String) (store : Store)
    (h : StatusOK store) :
    StatusOK (incoming_email nlp pd pt fetch create rid? text store).1 := by
  rw [incoming_email.eq_def]
  split
  · exact h
  · split
    · exact h
    · rename_i rid2 hrid2 req heq
      split
      · rename_i hpend
        exact statusOK_schedule fetch create
          { req with availability := parse_availability pd pt (nlp text) }
          (save store
            { req with availability := parse_availability pd pt (nlp text) })
          (statusOK_save store _ h (Or.inl hpend))
      · exact h

/-- C10: in every store reachable through the core's operations, each
request's status is `pending` or `scheduled`; no operation ever writes the
spec's third enum member `failed` (new.py assigns only the `pending`
default at line 32 and `scheduled` at line 155). -/
theorem C10_status_invariant (store : Store) (h : Reachable store) :
    ∀ r ∈ store, r.status = "pending" ∨ r.status = "scheduled" := by
  induction h with
  | nil => intro r hr; simp at hr
  | initiate_step s c rec i hs ih =>
    intro r hr
    rw [initiate] at hr
    rcases List.mem_append.mp hr with h1 | h1
    · exact ih r h1
    · left
      have h2 : r = ⟨i, c, rec, "pending", []⟩ := by simpa using h1
      rw [h2]
  | ingest_step s nlp pd pt fetch create rid? text hs ih =>
    exact statusOK_ingest nlp pd pt fetch create rid? text s ih
  | schedule_step s fetch create req hs ih =>
    exact statusOK_schedule fetch create req s ih

/-- Witness for C10: the store reached by one `initiate` from the empty
store contains the new request, whose status is indeed `pending`. -/
theorem C10_status_invariant_witness :
    (⟨1, "cand", "rec", "pending", []⟩ : SchedulingRequest).status =
        "pending" ∨
      (⟨1, "cand", "rec", "pending", []⟩ : SchedulingRequest).status =
        "scheduled" :=
  C10_status_invariant (initiate [] "cand" "rec" 1)
    (Reachable.initiate_step [] "cand" "rec" 1 Reachable.nil)
    ⟨1, "cand", "rec", "pending", []⟩ (by decide)
